import Mathlib

/-!
Verification of the Query-Pulse query-state engine.

The development shallowly embeds the engine of `src/lib/QueryProvider.tsx`
(the cache-aware `fetchData` function), the `QueryState` model of
`src/lib/types.ts`, the `useQuery` hook, and the `InMemoryCache` plugin.

Modelling conventions:
- A producer (the `fetchFn` argument) is modelled by the outcome of awaiting
  it: `Except E V` is either the unwrapped `data` value on resolution or the
  rejection value.  The `refetch` closure stored on each record is modelled by
  the captured pair of key and producer (`refetchKey`, `refetchProducer`).
- JavaScript object maps with string keys are modelled by insertion-ordered
  association lists (`assocGet`, `assocSet`), matching object-spread update
  semantics; the `Map` inside `InMemoryCache` additionally supports
  `assocDelete`.
- Concurrency follows the single-threaded cooperative model of the engine:
  the synchronous prefix of `fetchData` (dedup check, cache read, loading
  write, starting the producer) is one atomic step, and each suspended
  producer call is a pending task whose resolution is a separate atomic step.
  `setQueryStore` applies its functional update to the store at once and the
  mirror ref always reflects the current store.
- For claims about object identity (in-place record mutation) a second,
  heap-based embedding of the same engine is given, where records live in an
  arena and stores map keys to arena indices.
-/

namespace QueryPulse

/-! ## Association lists for string-keyed objects and maps -/

/-- Lookup in a string-keyed association list; models `obj[key]` on a
JavaScript object (or `Map.get`), returning `none` for `undefined`. -/
def assocGet {A : Type} : List (String × A) → String → Option A
  | [], _ => none
  | e :: rest, k => if e.1 = k then some e.2 else assocGet rest k

/-- Update of a string-keyed association list; models `{...obj, [key]: v}` /
`obj[key] = v` / `Map.set`: replaces the binding in place if present,
appends it otherwise. -/
def assocSet {A : Type} : List (String × A) → String → A → List (String × A)
  | [], k, v => [(k, v)]
  | e :: rest, k, v => if e.1 = k then (k, v) :: rest else e :: assocSet rest k v

/-- Removal from a string-keyed association list; models `Map.delete`
(removing the entry for the key, a no-op when absent). -/
def assocDelete {A : Type} : List (String × A) → String → List (String × A)
  | [], _ => []
  | e :: rest, k => if e.1 = k then rest else e :: assocDelete rest k

theorem assocGet_set_self {A : Type} (l : List (String × A)) (k : String) (v : A) :
    assocGet (assocSet l k v) k = some v := by
  induction l with
  | nil => simp [assocSet, assocGet]
  | cons e rest ih =>
    by_cases h : e.1 = k
    · simp [assocSet, h, assocGet]
    · simp [assocSet, h, assocGet, ih]

theorem assocGet_set_ne {A : Type} (l : List (String × A)) (k k' : String) (v : A)
    (h : k' ≠ k) : assocGet (assocSet l k v) k' = assocGet l k' := by
  induction l with
  | nil => simp [assocSet, assocGet, Ne.symm h]
  | cons e rest ih =>
    by_cases he : e.1 = k
    · simp [assocSet, he, assocGet, Ne.symm h]
    · simp only [assocSet, he, if_neg, assocGet]
      by_cases he' : e.1 = k'
      · simp [he']
      · simp [he', ih]

theorem assocGet_eq_none_of_not_mem {A : Type} (l : List (String × A)) (k : String)
    (h : k ∉ l.map Prod.fst) : assocGet l k = none := by
  induction l with
  | nil => rfl
  | cons e rest ih =>
    simp only [List.map_cons, List.mem_cons] at h
    push_neg at h
    simp [assocGet, Ne.symm h.1, ih h.2]

theorem assocGet_delete_self {A : Type} (l : List (String × A)) (k : String)
    (h : (l.map Prod.fst).Nodup) : assocGet (assocDelete l k) k = none := by
  induction l with
  | nil => rfl
  | cons e rest ih =>
    simp only [List.map_cons, List.nodup_cons] at h
    by_cases he : e.1 = k
    · simpa [assocDelete, he] using assocGet_eq_none_of_not_mem rest k (he ▸ h.1)
    · simp [assocDelete, he, assocGet, ih h.2]

theorem assocGet_delete_ne {A : Type} (l : List (String × A)) (k k' : String)
    (h : k' ≠ k) : assocGet (assocDelete l k) k' = assocGet l k' := by
  induction l with
  | nil => rfl
  | cons e rest ih =>
    by_cases he : e.1 = k
    · simp [assocDelete, he, assocGet, Ne.symm h]
    · simp only [assocDelete, he, if_neg, assocGet]
      by_cases he' : e.1 = k'
      · simp [he']
      · simp [he', ih]

/-! ## The InMemoryCache plugin (`src/lib/plugins/cache/InMemoryCache.ts`) -/

/-- InMemoryCache: a CachePlugin backed by an in-memory `Map` from string
keys to values.  The `Map` is modelled by an insertion-ordered association
list with (invariantly) pairwise distinct keys. -/
structure InMemoryCache (V : Type) where
  store : List (String × V)
deriving DecidableEq

/-- Retrieves the value for a key, or `none` (undefined) when absent. -/
def InMemoryCache.get {V : Type} (c : InMemoryCache V) (k : String) : Option V :=
  assocGet c.store k

/-- Stores a key-value pair, overwriting an existing binding for the key. -/
def InMemoryCache.set {V : Type} (c : InMemoryCache V) (k : String) (v : V) :
    InMemoryCache V :=
  ⟨assocSet c.store k v⟩

/-- Deletes the binding for a key, if present. -/
def InMemoryCache.delete {V : Type} (c : InMemoryCache V) (k : String) :
    InMemoryCache V :=
  ⟨assocDelete c.store k⟩

/-- Well-formedness of a cache state as maintained by `Map`: keys are
pairwise distinct. -/
def InMemoryCache.WF {V : Type} (c : InMemoryCache V) : Prop :=
  (c.store.map Prod.fst).Nodup

/-- C10: for the InMemoryCache plugin, get after set returns the value just
set, get after delete returns undefined, and set or delete for one key does
not change what get returns for any other key. -/
theorem InMemoryCache.get_set_delete_spec {V : Type} (c : InMemoryCache V)
    (k k' : String) (v : V) (hk : k' ≠ k) (hwf : c.WF) :
    (c.set k v).get k = some v ∧
    (c.delete k).get k = none ∧
    (c.set k v).get k' = c.get k' ∧
    (c.delete k).get k' = c.get k' :=
  ⟨assocGet_set_self c.store k v,
   assocGet_delete_self c.store k hwf,
   assocGet_set_ne c.store k k' v hk,
   assocGet_delete_ne c.store k k' hk⟩

/-- Witness for C10 at a concrete cache state. -/
theorem InMemoryCache.get_set_delete_spec_witness :
    ((⟨[("a", 1)]⟩ : InMemoryCache Nat).set "k" 5).get "k" = some 5 ∧
    ((⟨[("a", 1)]⟩ : InMemoryCache Nat).delete "k").get "k" = none ∧
    ((⟨[("a", 1)]⟩ : InMemoryCache Nat).set "k" 5).get "a" = (⟨[("a", 1)]⟩ : InMemoryCache Nat).get "a" ∧
    ((⟨[("a", 1)]⟩ : InMemoryCache Nat).delete "k").get "a" = (⟨[("a", 1)]⟩ : InMemoryCache Nat).get "a" :=
  InMemoryCache.get_set_delete_spec ⟨[("a", 1)]⟩ "k" "a" 5 (by decide)
    (by simp [InMemoryCache.WF])

/-! ## QueryState model (`src/lib/types.ts`) -/

instance {E V : Type} [DecidableEq E] [DecidableEq V] : DecidableEq (Except E V) :=
  fun a b =>
    match a, b with
    | .ok x, .ok y =>
      if h : x = y then isTrue (h ▸ rfl) else isFalse (fun hc => h (Except.ok.inj hc))
    | .error x, .error y =>
      if h : x = y then isTrue (h ▸ rfl) else isFalse (fun hc => h (Except.error.inj hc))
    | .ok _, .error _ => isFalse (fun hc => Except.noConfusion hc)
    | .error _, .ok _ => isFalse (fun hc => Except.noConfusion hc)

/-- Status of a query, from the `QueryStatus` union type. -/
inductive QueryStatus where
  | idle
  | loading
  | success
  | error
deriving DecidableEq

/-- Per-key query record, from the `QueryState` interface.  `data` and
`error` are optional fields (`none` models an absent field).  The `refetch`
closure `() => fetchData(key, fetchFn)` is modelled by the pair of values it
captures: `refetchKey` and `refetchProducer`. -/
structure QueryState (V E : Type) where
  status : QueryStatus
  data : Option V := none
  error : Option E := none
  isFetching : Bool
  refetchKey : String
  refetchProducer : Except E V
deriving DecidableEq

/-- The query store: a string-keyed object mapping keys to records. -/
abbrev QueryStore (V E : Type) := List (String × QueryState V E)

/-! ## The engine (`src/lib/QueryProvider.tsx`, cache-aware `fetchData`)

The engine state carries the query store, the optional cache plugin
(modelled by its reference implementation `InMemoryCache`), and the list of
outstanding producer calls (tasks suspended at `await fetchFn()`).  With
`cache = none` the model is exactly the cache-less first revision of
`fetchData`, whose cache-read step is skipped. -/

/-- An outstanding producer call for a key, suspended at the await. -/
structure Task (V E : Type) where
  key : String
  producer : Except E V
deriving DecidableEq

/-- The whole engine state. -/
structure Sys (V E : Type) where
  queryStore : QueryStore V E
  cache : Option (InMemoryCache V)
  pending : List (Task V E)
deriving DecidableEq

variable {V E : Type}

/-- The deduplication guard `queryStoreRef.current[key]?.isFetching`:
optional chaining yields a falsy value when the record is absent. -/
def isFetchingOf : Option (QueryState V E) → Bool
  | some r => r.isFetching
  | none => false

/-- Cache-read step of `fetchData`: when a cache is configured and no record
exists for the key, query `cache.get(key)`; on a defined value publish a
success record carrying the cached data (with `isFetching: false`). -/
def fetchDataCacheRead (s : Sys V E) (key : String) (p : Except E V) : Sys V E :=
  match s.cache, assocGet s.queryStore key with
  | some c, none =>
    match c.get key with
    | some v =>
      let r : QueryState V E :=
        { status := .success, data := some v, error := none, isFetching := false,
          refetchKey := key, refetchProducer := p }
      { s with queryStore := assocSet s.queryStore key r }
    | none => s
  | some _, some _ => s
  | none, _ => s

/-- Loading step of `fetchData`: if the key is not in the store, create a
record `{status: loading, isFetching: true}`; otherwise only set
`newStore[key].isFetching = true` on the existing record (its status, data,
error and refetch are left as they were). -/
def fetchDataLoading (s : Sys V E) (key : String) (p : Except E V) : Sys V E :=
  match assocGet s.queryStore key with
  | none =>
    let r : QueryState V E :=
      { status := .loading, data := none, error := none, isFetching := true,
        refetchKey := key, refetchProducer := p }
    { s with queryStore := assocSet s.queryStore key r }
  | some r =>
    { s with queryStore := assocSet s.queryStore key ({ r with isFetching := true }) }

/-- The synchronous prefix of `fetchData(key, fetchFn)`: the dedup early
return, then the cache-read step, then the loading step, then the producer
call starts (one new pending task). -/
def fetchDataStart (s : Sys V E) (key : String) (p : Except E V) : Sys V E :=
  if isFetchingOf (assocGet s.queryStore key) then s
  else
    let s1 := fetchDataLoading (fetchDataCacheRead s key p) key p
    { s1 with pending := s1.pending ++ [⟨key, p⟩] }

/-- Resolution of an awaited producer: on resolution with value `v`, call
`cache.set(key, v)` when a cache is configured and write a success record;
on rejection with `e`, write an error record carrying `e` (the rejection is
caught by the try/catch and becomes state; the cache is untouched). -/
def fetchDataResolve (s : Sys V E) (t : Task V E) : Sys V E :=
  match t.producer with
  | .ok v =>
    let r : QueryState V E :=
      { status := .success, data := some v, error := none, isFetching := false,
        refetchKey := t.key, refetchProducer := t.producer }
    { s with
        cache := s.cache.map (fun c => c.set t.key v),
        queryStore := assocSet s.queryStore t.key r }
  | .error e =>
    let r : QueryState V E :=
      { status := .error, data := none, error := some e, isFetching := false,
        refetchKey := t.key, refetchProducer := t.producer }
    { s with queryStore := assocSet s.queryStore t.key r }

/-- Completion of the i-th outstanding producer call: apply its resolution
and remove it from the outstanding list. -/
def resolvePending (s : Sys V E) (i : Nat) : Sys V E :=
  match s.pending[i]? with
  | none => s
  | some t => { fetchDataResolve s t with pending := s.pending.eraseIdx i }

/-- One scheduler event under cooperative concurrency: either some caller
runs the synchronous prefix of `fetchData`, or an outstanding producer call
completes. -/
inductive Action (V E : Type) where
  | invoke (key : String) (producer : Except E V)
  | resolve (i : Nat)
deriving DecidableEq

/-- Apply one event to the engine state. -/
def applyAction (s : Sys V E) : Action V E → Sys V E
  | .invoke k p => fetchDataStart s k p
  | .resolve i => resolvePending s i

/-- Run a sequence of events. -/
def exec (s : Sys V E) : List (Action V E) → Sys V E
  | [] => s
  | a :: rest => exec (applyAction s a) rest

/-- The initial engine state: an empty store, no outstanding call, and an
optional (arbitrarily pre-populated) cache plugin. -/
def initSys (cache : Option (InMemoryCache V)) : Sys V E :=
  { queryStore := [], cache := cache, pending := [] }

/-- States reachable from some initial state by scheduler events. -/
def Reachable (s : Sys V E) : Prop :=
  ∃ cache acts, exec (initSys cache) acts = s

/-! ## The useQuery hook (`src/lib/useQuery.ts`) -/

/-- The default record used by `useQuery` for a key absent from the store. -/
def defaultQueryState (key : String) (p : Except E V) : QueryState V E :=
  { status := .idle, data := none, error := none, isFetching := false,
    refetchKey := key, refetchProducer := p }

/-- The read performed by `useQuery`: the record under the key, or the
default idle record when the key is absent. -/
def readQueryState (s : Sys V E) (key : String) (p : Except E V) : QueryState V E :=
  (assocGet s.queryStore key).getD (defaultQueryState key p)

/-- The `useQuery` hook: reads the context; outside an initialized
QueryProvider the context is undefined and the hook throws before touching
any query state, otherwise it reads the state for the key. -/
def useQuery (ctx : Option (Sys V E)) (key : String) (p : Except E V) :
    Except String (QueryState V E) :=
  match ctx with
  | none => Except.error "useQuery must be used within a QueryProvider"
  | some s => Except.ok (readQueryState s key p)

/-! ## Characterization and frame lemmas for the engine steps -/

theorem fetchDataCacheRead_eq (s : Sys V E) (key : String) (p : Except E V) :
    fetchDataCacheRead s key p = s ∨
    ∃ c v, s.cache = some c ∧ assocGet s.queryStore key = none ∧ c.get key = some v ∧
      fetchDataCacheRead s key p =
        { s with queryStore :=
            assocSet s.queryStore key ⟨.success, some v, none, false, key, p⟩ } := by
  rcases hc : s.cache with _ | c
  · left; simp [fetchDataCacheRead, hc]
  · rcases hg : assocGet s.queryStore key with _ | r
    · rcases hv : c.get key with _ | v
      · left; simp [fetchDataCacheRead, hc, hg, hv]
      · right; exact ⟨c, v, rfl, rfl, hv, by simp [fetchDataCacheRead, hc, hg, hv]⟩
    · left; simp [fetchDataCacheRead, hc, hg]

theorem fetchDataLoading_eq (s : Sys V E) (key : String) (p : Except E V) :
    (assocGet s.queryStore key = none ∧ fetchDataLoading s key p =
      { s with queryStore := assocSet s.queryStore key ⟨.loading, none, none, true, key, p⟩ }) ∨
    ∃ r, assocGet s.queryStore key = some r ∧ fetchDataLoading s key p =
      { s with queryStore := assocSet s.queryStore key ({ r with isFetching := true }) } := by
  rcases hg : assocGet s.queryStore key with _ | r
  · left; exact ⟨rfl, by simp [fetchDataLoading, hg]⟩
  · right; exact ⟨r, rfl, by simp [fetchDataLoading, hg]⟩

theorem fetchDataResolve_eq (s : Sys V E) (t : Task V E) :
    (∃ v, t.producer = Except.ok v ∧ fetchDataResolve s t =
      { s with
          cache := s.cache.map (fun c => c.set t.key v),
          queryStore :=
            assocSet s.queryStore t.key ⟨.success, some v, none, false, t.key, t.producer⟩ }) ∨
    (∃ e, t.producer = Except.error e ∧ fetchDataResolve s t =
      { s with queryStore :=
          assocSet s.queryStore t.key ⟨.error, none, some e, false, t.key, t.producer⟩ }) := by
  rcases hp : t.producer with e | v
  · right; exact ⟨e, rfl, by simp [fetchDataResolve, hp]⟩
  · left; exact ⟨v, rfl, by simp [fetchDataResolve, hp]⟩

theorem fetchDataCacheRead_pending (s : Sys V E) (key : String) (p : Except E V) :
    (fetchDataCacheRead s key p).pending = s.pending := by
  rcases fetchDataCacheRead_eq s key p with he | ⟨c, v, _, _, _, he⟩ <;> rw [he]

theorem fetchDataLoading_pending (s : Sys V E) (key : String) (p : Except E V) :
    (fetchDataLoading s key p).pending = s.pending := by
  rcases fetchDataLoading_eq s key p with ⟨_, he⟩ | ⟨r, _, he⟩ <;> rw [he]

theorem fetchDataCacheRead_get_ne (s : Sys V E) (key : String) (p : Except E V)
    (k' : String) (h : k' ≠ key) :
    assocGet (fetchDataCacheRead s key p).queryStore k' = assocGet s.queryStore k' := by
  rcases fetchDataCacheRead_eq s key p with he | ⟨c, v, _, _, _, he⟩ <;>
    simp [he, assocGet_set_ne _ _ _ _ h]

theorem fetchDataLoading_get_ne (s : Sys V E) (key : String) (p : Except E V)
    (k' : String) (h : k' ≠ key) :
    assocGet (fetchDataLoading s key p).queryStore k' = assocGet s.queryStore k' := by
  rcases fetchDataLoading_eq s key p with ⟨_, he⟩ | ⟨r, _, he⟩ <;>
    simp [he, assocGet_set_ne _ _ _ _ h]

theorem fetchDataResolve_get_ne (s : Sys V E) (t : Task V E)
    (k' : String) (h : k' ≠ t.key) :
    assocGet (fetchDataResolve s t).queryStore k' = assocGet s.queryStore k' := by
  rcases fetchDataResolve_eq s t with ⟨v, _, he⟩ | ⟨e, _, he⟩ <;>
    simp [he, assocGet_set_ne _ _ _ _ h]

theorem fetchDataResolve_cache_of_error (s : Sys V E) (t : Task V E) (e : E)
    (he : t.producer = Except.error e) : (fetchDataResolve s t).cache = s.cache := by
  simp [fetchDataResolve, he]

theorem fetchDataLoading_isFetching_self (s : Sys V E) (key : String) (p : Except E V) :
    isFetchingOf (assocGet (fetchDataLoading s key p).queryStore key) = true := by
  rcases fetchDataLoading_eq s key p with ⟨_, he⟩ | ⟨r, _, he⟩ <;>
    simp [he, assocGet_set_self, isFetchingOf]

theorem fetchDataStart_of_not_fetching (s : Sys V E) (key : String) (p : Except E V)
    (hf : isFetchingOf (assocGet s.queryStore key) = false) :
    fetchDataStart s key p =
      { fetchDataLoading (fetchDataCacheRead s key p) key p with
          pending := s.pending ++ [⟨key, p⟩] } := by
  have h2 : (fetchDataLoading (fetchDataCacheRead s key p) key p).pending = s.pending := by
    rw [fetchDataLoading_pending, fetchDataCacheRead_pending]
  simp [fetchDataStart, hf]
  rw [h2]

/-! ## Invariants of reachable engine states -/

/-- Every outstanding producer call is covered by an `isFetching` record,
and no key has more than one outstanding call. -/
def DedupInv (s : Sys V E) : Prop :=
  (∀ t ∈ s.pending, isFetchingOf (assocGet s.queryStore t.key) = true) ∧
  (s.pending.map Task.key).Nodup

/-- Records never populate both `data` and `error`. -/
def ExclInv (s : Sys V E) : Prop :=
  ∀ k r, assocGet s.queryStore k = some r → r.data = none ∨ r.error = none

theorem ne_key_of_mem_eraseIdx {α β : Type} (f : α → β) (l : List α) :
    ∀ (i : Nat) (t t' : α), (l.map f).Nodup → l[i]? = some t →
      t' ∈ l.eraseIdx i → f t' ≠ f t := by
  induction l with
  | nil => intro i t t' _ hi _; simp at hi
  | cons a l ih =>
    intro i t t' hnd hi ht'
    simp only [List.map_cons, List.nodup_cons] at hnd
    cases i with
    | zero =>
      simp only [List.getElem?_cons_zero, Option.some.injEq] at hi
      subst hi
      simp only [List.eraseIdx_cons_zero] at ht'
      exact fun hf => hnd.1 (hf ▸ List.mem_map_of_mem f ht')
    | succ i =>
      simp only [List.getElem?_cons_succ] at hi
      simp only [List.eraseIdx_cons_succ, List.mem_cons] at ht'
      rcases ht' with rfl | ht'
      · exact fun hf => hnd.1 (hf ▸ List.mem_map_of_mem f (List.getElem?_mem hi))
      · exact ih i t t' hnd.2 hi ht'

theorem dedupInv_applyAction (s : Sys V E) (a : Action V E) (h : DedupInv s) :
    DedupInv (applyAction s a) := by
  cases a with
  | invoke key p =>
    by_cases hf : isFetchingOf (assocGet s.queryStore key) = true
    · simpa [applyAction, fetchDataStart, hf] using h
    · have hf' : isFetchingOf (assocGet s.queryStore key) = false := by
        simpa using hf
      have hkey : ∀ t ∈ s.pending, t.key ≠ key := by
        intro t ht hkt
        exact hf (hkt ▸ h.1 t ht)
      have hframe : ∀ k', k' ≠ key →
          assocGet (fetchDataLoading (fetchDataCacheRead s key p) key p).queryStore k' =
            assocGet s.queryStore k' := by
        intro k' hk'
        rw [fetchDataLoading_get_ne _ _ _ _ hk', fetchDataCacheRead_get_ne _ _ _ _ hk']
      show DedupInv (fetchDataStart s key p)
      rw [fetchDataStart_of_not_fetching s key p hf']
      constructor
      · intro t ht
        simp only [List.mem_append, List.mem_singleton] at ht
        rcases ht with ht | rfl
        · have hk := hkey t ht
          show isFetchingOf (assocGet
            (fetchDataLoading (fetchDataCacheRead s key p) key p).queryStore t.key) = true
          rw [hframe t.key hk]
          exact h.1 t ht
        · exact fetchDataLoading_isFetching_self (fetchDataCacheRead s key p) key p
      · show ((s.pending ++ [(⟨key, p⟩ : Task V E)]).map Task.key).Nodup
        rw [List.map_append]
        simp only [List.map_cons, List.map_nil]
        rw [List.nodup_append]
        refine ⟨h.2, List.nodup_singleton key, ?_⟩
        intro x hx hx'
        simp only [List.mem_singleton] at hx'
        subst hx'
        obtain ⟨t, ht, hkt⟩ := List.mem_map.mp hx
        exact hkey t ht hkt
  | resolve i =>
    rcases hi : s.pending[i]? with _ | t
    · simpa [applyAction, resolvePending, hi] using h
    · have hstate : applyAction s (Action.resolve i) =
          { fetchDataResolve s t with pending := s.pending.eraseIdx i } := by
        simp [applyAction, resolvePending, hi]
      rw [hstate]
      constructor
      · intro t' ht'
        have hne : t'.key ≠ t.key :=
          ne_key_of_mem_eraseIdx Task.key s.pending i t t' h.2 hi ht'
        show isFetchingOf (assocGet (fetchDataResolve s t).queryStore t'.key) = true
        rw [fetchDataResolve_get_ne s t t'.key hne]
        exact h.1 t' (List.Sublist.mem ht' (List.eraseIdx_sublist s.pending i))
      · exact h.2.sublist ((List.eraseIdx_sublist s.pending i).map Task.key)

theorem exclInv_applyAction (s : Sys V E) (a : Action V E) (h : ExclInv s) :
    ExclInv (applyAction s a) := by
  have hstep : ∀ (st : Sys V E) (k0 : String) (r0 : QueryState V E),
      ExclInv st → (r0.data = none ∨ r0.error = none) →
      ExclInv { st with queryStore := assocSet st.queryStore k0 r0 } := by
    intro st k0 r0 hst hr0 k r hr
    by_cases hk : k = k0
    · subst hk
      rw [assocGet_set_self] at hr
      cases hr
      exact hr0
    · rw [assocGet_set_ne _ _ _ _ hk] at hr
      exact hst k r hr
  cases a with
  | invoke key p =>
    by_cases hf : isFetchingOf (assocGet s.queryStore key) = true
    · simpa [applyAction, fetchDataStart, hf] using h
    · have hf' : isFetchingOf (assocGet s.queryStore key) = false := by simpa using hf
      have h1 : ExclInv (fetchDataCacheRead s key p) := by
        rcases fetchDataCacheRead_eq s key p with he | ⟨c, v, _, _, _, he⟩
        · rw [he]; exact h
        · rw [he]; exact hstep s key _ h (Or.inr rfl)
      have h2 : ExclInv (fetchDataLoading (fetchDataCacheRead s key p) key p) := by
        rcases fetchDataLoading_eq (fetchDataCacheRead s key p) key p with ⟨_, he⟩ | ⟨r, hg, he⟩
        · rw [he]; exact hstep _ key _ h1 (Or.inl rfl)
        · rw [he]; exact hstep _ key _ h1 (h1 key r hg)
      intro k r hr
      simp only [applyAction] at hr
      rw [fetchDataStart_of_not_fetching s key p hf'] at hr
      exact h2 k r hr
  | resolve i =>
    rcases hi : s.pending[i]? with _ | t
    · simpa [applyAction, resolvePending, hi] using h
    · have hres : ExclInv (fetchDataResolve s t) := by
        rcases fetchDataResolve_eq s t with ⟨v, _, he⟩ | ⟨e, _, he⟩
        · rw [he]; exact hstep s t.key _ h (Or.inr rfl)
        · rw [he]; exact hstep s t.key _ h (Or.inl rfl)
      intro k r hr
      simp only [applyAction, resolvePending, hi] at hr
      exact hres k r hr

theorem dedupInv_exec (acts : List (Action V E)) :
    ∀ s : Sys V E, DedupInv s → DedupInv (exec s acts) := by
  induction acts with
  | nil => intro s h; exact h
  | cons a rest ih => intro s h; exact ih _ (dedupInv_applyAction s a h)

theorem exclInv_exec (acts : List (Action V E)) :
    ∀ s : Sys V E, ExclInv s → ExclInv (exec s acts) := by
  induction acts with
  | nil => intro s h; exact h
  | cons a rest ih => intro s h; exact ih _ (exclInv_applyAction s a h)

theorem dedupInv_reachable (s : Sys V E) (h : Reachable s) : DedupInv s := by
  obtain ⟨cache, acts, rfl⟩ := h
  refine dedupInv_exec acts _ ⟨?_, ?_⟩
  · intro t ht; simp [initSys] at ht
  · simp [initSys]

theorem exclInv_reachable (s : Sys V E) (h : Reachable s) : ExclInv s := by
  obtain ⟨cache, acts, rfl⟩ := h
  refine exclInv_exec acts _ ?_
  intro k r hr
  simp [initSys, assocGet] at hr

/-! ## Claim theorems -/

/-- C1: a call to invoke made while the record for the key has
`isFetching = true` returns immediately, leaving the whole engine state
unchanged (so no state is mutated, the producer is not called, and nothing
is queued for later replay); and in every reachable state at most one
producer call is outstanding per key. -/
theorem fetchData_dedup (s : Sys V E) (key : String) (p : Except E V) :
    (isFetchingOf (assocGet s.queryStore key) = true → fetchDataStart s key p = s) ∧
    (Reachable s → s.pending.countP (fun t => t.key == key) ≤ 1) := by
  constructor
  · intro hf
    simp [fetchDataStart, hf]
  · intro hr
    have hnd := (dedupInv_reachable s hr).2
    have hc : s.pending.countP (fun t => t.key == key) =
        (s.pending.map Task.key).count key := by
      rw [List.count_eq_countP, List.countP_map]
      rfl
    rw [hc]
    exact List.nodup_iff_count_le_one.mp hnd key

/-- Witness for C1: in the state reached by one invoke of key a the record
is fetching, a second invoke is the identity, and key a has exactly one
outstanding call. -/
theorem fetchData_dedup_witness :
    fetchDataStart (exec (initSys (V := Nat) (E := Nat) none)
        [Action.invoke "a" (Except.ok 0)]) "a" (Except.ok 1) =
      exec (initSys (V := Nat) (E := Nat) none) [Action.invoke "a" (Except.ok 0)] ∧
    (exec (initSys (V := Nat) (E := Nat) none)
        [Action.invoke "a" (Except.ok 0)]).pending.countP (fun t => t.key == "a") ≤ 1 :=
  ⟨(fetchData_dedup _ "a" (Except.ok 1)).1 (by decide),
   (fetchData_dedup _ "a" (Except.ok 1)).2 ⟨none, [Action.invoke "a" (Except.ok 0)], rfl⟩⟩

/-- C2 as stated is false: invoking on a key whose record is in the success
state does not transition the status back to loading.  In the run below the
key resolves successfully and is then invoked again; the new invoke is not
suppressed (the producer call is outstanding, `isFetching = true`), yet the
status stays `success` instead of becoming `loading`. -/
theorem fetchData_loading_status_counterexample :
    ((assocGet (exec (initSys (V := Nat) (E := Nat) none)
        [Action.invoke "k" (Except.ok 42), Action.resolve 0,
         Action.invoke "k" (Except.ok 7)]).queryStore "k").map QueryState.status =
      some QueryStatus.success) ∧
    ¬ ((assocGet (exec (initSys (V := Nat) (E := Nat) none)
        [Action.invoke "k" (Except.ok 42), Action.resolve 0,
         Action.invoke "k" (Except.ok 7)]).queryStore "k").map QueryState.status =
      some QueryStatus.loading) ∧
    ((assocGet (exec (initSys (V := Nat) (E := Nat) none)
        [Action.invoke "k" (Except.ok 42), Action.resolve 0,
         Action.invoke "k" (Except.ok 7)]).queryStore "k").map QueryState.isFetching =
      some true) ∧
    (exec (initSys (V := Nat) (E := Nat) none)
        [Action.invoke "k" (Except.ok 42), Action.resolve 0,
         Action.invoke "k" (Except.ok 7)]).pending.length = 1 := by
  decide

/-- C2 amended: after the cache-read step, a non-suppressed invoke creates a
record with `status = loading` and `isFetching = true` when the key has no
record; when a record exists it only sets `isFetching = true` on it, leaving
status, data, error and the refetch binding unchanged (so a success or error
record keeps its previous status while refetching); in both cases the key is
fetching afterwards. -/
theorem fetchData_loading_step (s : Sys V E) (key : String) (p : Except E V)
    (hf : isFetchingOf (assocGet s.queryStore key) = false) :
    (assocGet (fetchDataCacheRead s key p).queryStore key = none →
      assocGet (fetchDataStart s key p).queryStore key =
        some ⟨.loading, none, none, true, key, p⟩) ∧
    (∀ r, assocGet (fetchDataCacheRead s key p).queryStore key = some r →
      assocGet (fetchDataStart s key p).queryStore key =
        some ({ r with isFetching := true })) ∧
    isFetchingOf (assocGet (fetchDataStart s key p).queryStore key) = true := by
  rw [fetchDataStart_of_not_fetching s key p hf]
  have hload := fetchDataLoading_eq (fetchDataCacheRead s key p) key p
  refine ⟨?_, ?_, ?_⟩
  · intro hg
    rcases hload with ⟨_, he⟩ | ⟨r, hg', he⟩
    · rw [he]
      exact assocGet_set_self _ _ _
    · rw [hg] at hg'; cases hg'
  · intro r hg
    rcases hload with ⟨hg', he⟩ | ⟨r', hg', he⟩
    · rw [hg] at hg'; cases hg'
    · rw [hg] at hg'
      cases hg'
      rw [he]
      exact assocGet_set_self _ _ _
  · exact fetchDataLoading_isFetching_self (fetchDataCacheRead s key p) key p

/-- Witness for the amended C2: a fresh key gets a loading record, and a key
already in the success state keeps its record with only isFetching set. -/
theorem fetchData_loading_step_witness :
    (assocGet (fetchDataStart (initSys (V := Nat) (E := Nat) none) "k"
        (Except.ok 3)).queryStore "k" =
      some ⟨.loading, none, none, true, "k", Except.ok 3⟩) ∧
    (assocGet (fetchDataStart (exec (initSys (V := Nat) (E := Nat) none)
          [Action.invoke "k" (Except.ok 42), Action.resolve 0]) "k"
        (Except.ok 7)).queryStore "k" =
      some ⟨.success, some 42, none, true, "k", Except.ok 42⟩) :=
  ⟨(fetchData_loading_step (initSys none) "k" (Except.ok 3) (by decide)).1 (by decide),
   (fetchData_loading_step (exec (initSys none)
        [Action.invoke "k" (Except.ok 42), Action.resolve 0]) "k" (Except.ok 7)
      (by decide)).2.1 ⟨.success, some 42, none, false, "k", Except.ok 42⟩ (by decide)⟩

/-- C3: with a cache configured, no record for the key, and a cached value v,
invoke publishes an intermediate success record carrying v after the
cache-read step; the producer is still started (the synchronous prefix ends
with one more outstanding call and the cached record marked fetching), and
when the producer later resolves with w its result overwrites the cached
value in the record. -/
theorem fetchData_cache_hit (s : Sys V E) (key : String) (p : Except E V)
    (c : InMemoryCache V) (v : V) (hc : s.cache = some c)
    (hg : assocGet s.queryStore key = none) (hv : c.get key = some v) :
    assocGet (fetchDataCacheRead s key p).queryStore key =
      some ⟨.success, some v, none, false, key, p⟩ ∧
    (fetchDataStart s key p).pending = s.pending ++ [⟨key, p⟩] ∧
    assocGet (fetchDataStart s key p).queryStore key =
      some ⟨.success, some v, none, true, key, p⟩ ∧
    (∀ w, p = Except.ok w →
      assocGet (fetchDataResolve (fetchDataStart s key p) ⟨key, p⟩).queryStore key =
        some ⟨.success, some w, none, false, key, p⟩) := by
  have hf : isFetchingOf (assocGet s.queryStore key) = false := by
    rw [hg]; rfl
  have hread : fetchDataCacheRead s key p =
      { s with queryStore :=
          assocSet s.queryStore key ⟨.success, some v, none, false, key, p⟩ } := by
    simp [fetchDataCacheRead, hc, hg, hv]
  have h1 : assocGet (fetchDataCacheRead s key p).queryStore key =
      some ⟨.success, some v, none, false, key, p⟩ := by
    rw [hread]
    exact assocGet_set_self _ _ _
  have hstart := fetchDataStart_of_not_fetching s key p hf
  have h3 : assocGet (fetchDataStart s key p).queryStore key =
      some ⟨.success, some v, none, true, key, p⟩ := by
    rw [hstart]
    show assocGet (fetchDataLoading (fetchDataCacheRead s key p) key p).queryStore key = _
    rcases fetchDataLoading_eq (fetchDataCacheRead s key p) key p with ⟨hg', _⟩ | ⟨r, hg', he⟩
    · rw [h1] at hg'; cases hg'
    · rw [h1] at hg'
      cases hg'
      rw [he]
      exact assocGet_set_self _ _ _
  refine ⟨h1, by rw [hstart], h3, ?_⟩
  intro w hw
  subst hw
  have := fetchDataResolve_eq (fetchDataStart s key (Except.ok w)) ⟨key, Except.ok w⟩
  rcases this with ⟨v', hv', he⟩ | ⟨e, he', _⟩
  · cases hv'
    rw [he]
    exact assocGet_set_self _ _ _
  · cases he'

/-- Witness for C3 at a concrete pre-populated cache. -/
theorem fetchData_cache_hit_witness :
    (assocGet (fetchDataCacheRead (initSys (V := Nat) (E := Nat)
        (some ⟨[("k", 9)]⟩)) "k" (Except.ok 5)).queryStore "k" =
      some ⟨.success, some 9, none, false, "k", Except.ok 5⟩) ∧
    ((fetchDataStart (initSys (V := Nat) (E := Nat) (some ⟨[("k", 9)]⟩)) "k"
        (Except.ok 5)).pending = [] ++ [⟨"k", Except.ok 5⟩]) ∧
    (assocGet (fetchDataStart (initSys (V := Nat) (E := Nat) (some ⟨[("k", 9)]⟩)) "k"
        (Except.ok 5)).queryStore "k" =
      some ⟨.success, some 9, none, true, "k", Except.ok 5⟩) ∧
    (assocGet (fetchDataResolve (fetchDataStart (initSys (V := Nat) (E := Nat)
          (some ⟨[("k", 9)]⟩)) "k" (Except.ok 5)) ⟨"k", Except.ok 5⟩).queryStore "k" =
      some ⟨.success, some 5, none, false, "k", Except.ok 5⟩) := by
  have h := fetchData_cache_hit (initSys (V := Nat) (E := Nat) (some ⟨[("k", 9)]⟩)) "k"
    (Except.ok 5) ⟨[("k", 9)]⟩ 9 rfl rfl (by decide)
  exact ⟨h.1, h.2.1, h.2.2.1, h.2.2.2 5 rfl⟩

/-- C4: resolution of an outstanding producer call with value v writes a
success record (data v, isFetching false) and writes through to the cache
when one is configured; a failing resolution leaves the cache exactly as it
was. -/
theorem fetchData_resolution_writes (s : Sys V E) (i : Nat) (t : Task V E)
    (ht : s.pending[i]? = some t) :
    (∀ v, t.producer = Except.ok v →
      assocGet (resolvePending s i).queryStore t.key =
        some ⟨.success, some v, none, false, t.key, t.producer⟩ ∧
      (resolvePending s i).cache = s.cache.map (fun c => c.set t.key v)) ∧
    (∀ e, t.producer = Except.error e → (resolvePending s i).cache = s.cache) := by
  have hstate : resolvePending s i =
      { fetchDataResolve s t with pending := s.pending.eraseIdx i } := by
    simp [resolvePending, ht]
  constructor
  · intro v hv
    rcases fetchDataResolve_eq s t with ⟨v', hv', he⟩ | ⟨e, he', _⟩
    · rw [hv] at hv'
      cases hv'
      rw [hstate, he]
      exact ⟨assocGet_set_self _ _ _, rfl⟩
    · rw [hv] at he'; cases he'
  · intro e he
    rw [hstate]
    show (fetchDataResolve s t).cache = s.cache
    exact fetchDataResolve_cache_of_error s t e he

/-- Witness for C4: one run with a resolving producer (record written, cache
written through), one run with a failing producer (cache untouched). -/
theorem fetchData_resolution_writes_witness :
    (assocGet (resolvePending (exec (initSys (V := Nat) (E := Nat) (some ⟨[]⟩))
        [Action.invoke "k" (Except.ok 8)]) 0).queryStore "k" =
      some ⟨.success, some 8, none, false, "k", Except.ok 8⟩) ∧
    ((resolvePending (exec (initSys (V := Nat) (E := Nat) (some ⟨[]⟩))
        [Action.invoke "k" (Except.ok 8)]) 0).cache =
      (exec (initSys (V := Nat) (E := Nat) (some ⟨[]⟩))
        [Action.invoke "k" (Except.ok 8)]).cache.map (fun c => c.set "k" 8)) ∧
    ((resolvePending (exec (initSys (V := Nat) (E := Nat) (some ⟨[("k", 1)]⟩))
        [Action.invoke "k" (Except.error 4)]) 0).cache =
      (exec (initSys (V := Nat) (E := Nat) (some ⟨[("k", 1)]⟩))
        [Action.invoke "k" (Except.error 4)]).cache) := by
  have h1 := fetchData_resolution_writes (exec (initSys (V := Nat) (E := Nat) (some ⟨[]⟩))
    [Action.invoke "k" (Except.ok 8)]) 0 ⟨"k", Except.ok 8⟩ (by decide)
  have h2 := fetchData_resolution_writes
    (exec (initSys (V := Nat) (E := Nat) (some ⟨[("k", 1)]⟩))
      [Action.invoke "k" (Except.error 4)]) 0 ⟨"k", Except.error 4⟩ (by decide)
  exact ⟨(h1.1 8 rfl).1, (h1.1 8 rfl).2, h2.2 4 rfl⟩

/-- C5: a producer that fails with value e is contained by the engine: the
resolution step totally computes a new state whose record for the key is
`{status: error, error: e, isFetching: false}` with the failure value kept
verbatim, the call is removed from the outstanding list, the cache is
untouched, and (in reachable states) no outstanding or queued call for the
key remains, so the producer is not retried. -/
theorem fetchData_error_contained (s : Sys V E) (i : Nat) (t : Task V E) (e : E)
    (ht : s.pending[i]? = some t) (he : t.producer = Except.error e) :
    assocGet (resolvePending s i).queryStore t.key =
      some ⟨.error, none, some e, false, t.key, t.producer⟩ ∧
    (resolvePending s i).pending = s.pending.eraseIdx i ∧
    (resolvePending s i).cache = s.cache ∧
    (Reachable s →
      (resolvePending s i).pending.countP (fun t2 => t2.key == t.key) = 0) := by
  have hstate : resolvePending s i =
      { fetchDataResolve s t with pending := s.pending.eraseIdx i } := by
    simp [resolvePending, ht]
  refine ⟨?_, by rw [hstate], ?_, ?_⟩
  · rcases fetchDataResolve_eq s t with ⟨v, hv', _⟩ | ⟨e', he', hee⟩
    · rw [he] at hv'; cases hv'
    · rw [he] at he'
      cases he'
      rw [hstate, hee]
      exact assocGet_set_self _ _ _
  · rw [hstate]
    exact fetchDataResolve_cache_of_error s t e he
  · intro hr
    rw [hstate]
    show (s.pending.eraseIdx i).countP (fun t2 => t2.key == t.key) = 0
    rw [List.countP_eq_zero]
    intro t2 ht2
    have := ne_key_of_mem_eraseIdx Task.key s.pending i t t2
      (dedupInv_reachable s hr).2 ht ht2
    simpa using this

/-- Witness for C5 on a concrete failing run. -/
theorem fetchData_error_contained_witness :
    (assocGet (resolvePending (exec (initSys (V := Nat) (E := Nat) none)
        [Action.invoke "k" (Except.error 7)]) 0).queryStore "k" =
      some ⟨.error, none, some 7, false, "k", Except.error 7⟩) ∧
    ((resolvePending (exec (initSys (V := Nat) (E := Nat) none)
        [Action.invoke "k" (Except.error 7)]) 0).pending =
      (exec (initSys (V := Nat) (E := Nat) none)
        [Action.invoke "k" (Except.error 7)]).pending.eraseIdx 0) ∧
    ((resolvePending (exec (initSys (V := Nat) (E := Nat) none)
        [Action.invoke "k" (Except.error 7)]) 0).cache =
      (exec (initSys (V := Nat) (E := Nat) none)
        [Action.invoke "k" (Except.error 7)]).cache) ∧
    ((resolvePending (exec (initSys (V := Nat) (E := Nat) none)
        [Action.invoke "k" (Except.error 7)]) 0).pending.countP
        (fun t2 => t2.key == "k") = 0) := by
  have h := fetchData_error_contained (exec (initSys (V := Nat) (E := Nat) none)
    [Action.invoke "k" (Except.error 7)]) 0 ⟨"k", Except.error 7⟩ 7 (by decide) rfl
  exact ⟨h.1, h.2.1, h.2.2.1,
    h.2.2.2 ⟨none, [Action.invoke "k" (Except.error 7)], rfl⟩⟩

/-- C6: in every reachable engine state, every record in the store has at
most one of data and error populated: newly created loading records have
neither, success writes carry data and clear error, error writes carry
error and clear data, and marking an existing record as fetching keeps its
fields. -/
theorem queryState_data_error_exclusive (s : Sys V E) (h : Reachable s)
    (key : String) (r : QueryState V E)
    (hr : assocGet s.queryStore key = some r) :
    r.data = none ∨ r.error = none :=
  exclInv_reachable s h key r hr

/-- Witness for C6 at a reachable state holding a success record. -/
theorem queryState_data_error_exclusive_witness :
    (⟨.success, some 3, none, false, "k", Except.ok 3⟩ : QueryState Nat Nat).data = none ∨
    (⟨.success, some 3, none, false, "k", Except.ok 3⟩ : QueryState Nat Nat).error = none :=
  queryState_data_error_exclusive
    (exec (initSys (V := Nat) (E := Nat) none)
      [Action.invoke "k" (Except.ok 3), Action.resolve 0])
    ⟨none, [Action.invoke "k" (Except.ok 3), Action.resolve 0], rfl⟩ "k"
    ⟨.success, some 3, none, false, "k", Except.ok 3⟩ (by decide)

/-- A key is untouched: it has no record and no outstanding producer call. -/
def Untouched (s : Sys V E) (key : String) : Prop :=
  assocGet s.queryStore key = none ∧ ∀ t ∈ s.pending, t.key ≠ key

/-- Whether a scheduler event passes the given key to invoke. -/
def invokesKey (key : String) : Action V E → Bool
  | .invoke k _ => k == key
  | .resolve _ => false

theorem untouched_applyAction (s : Sys V E) (a : Action V E) (key : String)
    (hu : Untouched s key) (ha : invokesKey key a = false) :
    Untouched (applyAction s a) key := by
  cases a with
  | invoke k' p' =>
    have hk' : k' ≠ key := by
      simpa [invokesKey] using ha
    by_cases hf : isFetchingOf (assocGet s.queryStore k') = true
    · simpa [applyAction, fetchDataStart, hf] using hu
    · have hf' : isFetchingOf (assocGet s.queryStore k') = false := by simpa using hf
      show Untouched (fetchDataStart s k' p') key
      rw [fetchDataStart_of_not_fetching s k' p' hf']
      constructor
      · show assocGet (fetchDataLoading (fetchDataCacheRead s k' p') k' p').queryStore key = none
        rw [fetchDataLoading_get_ne _ _ _ _ (Ne.symm hk'),
          fetchDataCacheRead_get_ne _ _ _ _ (Ne.symm hk')]
        exact hu.1
      · intro t ht
        simp only [List.mem_append, List.mem_singleton] at ht
        rcases ht with ht | rfl
        · exact hu.2 t ht
        · exact hk'
  | resolve i =>
    rcases hi : s.pending[i]? with _ | t
    · simpa [applyAction, resolvePending, hi] using hu
    · have hne : t.key ≠ key := hu.2 t (List.getElem?_mem hi)
      have hstate : applyAction s (Action.resolve i) =
          { fetchDataResolve s t with pending := s.pending.eraseIdx i } := by
        simp [applyAction, resolvePending, hi]
      rw [hstate]
      constructor
      · show assocGet (fetchDataResolve s t).queryStore key = none
        rw [fetchDataResolve_get_ne s t key (Ne.symm hne)]
        exact hu.1
      · intro t' ht'
        exact hu.2 t' (List.Sublist.mem ht' (List.eraseIdx_sublist s.pending i))

theorem untouched_exec (acts : List (Action V E)) (key : String) :
    ∀ s : Sys V E, Untouched s key → (∀ a ∈ acts, invokesKey key a = false) →
      Untouched (exec s acts) key := by
  induction acts with
  | nil => intro s hu _; exact hu
  | cons a rest ih =>
    intro s hu ha
    exact ih _ (untouched_applyAction s a key hu (ha a (List.mem_cons_self a rest)))
      (fun b hb => ha b (List.mem_cons_of_mem a hb))

/-- C8: for any run in which the key is never passed to invoke, the read
performed by useQuery yields the default record, whose status is idle and
which is not fetching. -/
theorem useQuery_idle_default (cache : Option (InMemoryCache V))
    (acts : List (Action V E)) (key : String) (p : Except E V)
    (h : ∀ a ∈ acts, invokesKey key a = false) :
    readQueryState (exec (initSys cache) acts) key p = defaultQueryState key p ∧
    (readQueryState (exec (initSys cache) acts) key p).status = QueryStatus.idle ∧
    (readQueryState (exec (initSys cache) acts) key p).isFetching = false := by
  have hu : Untouched (exec (initSys (V := V) (E := E) cache) acts) key :=
    untouched_exec acts key (initSys cache) ⟨rfl, by intro t ht; simp [initSys] at ht⟩ h
  have hd : readQueryState (exec (initSys (V := V) (E := E) cache) acts) key p =
      defaultQueryState key p := by
    unfold readQueryState
    rw [hu.1]
    rfl
  exact ⟨hd, by rw [hd]; rfl, by rw [hd]; rfl⟩

/-- Witness for C8: a run touching only key b leaves key a idle. -/
theorem useQuery_idle_default_witness :
    readQueryState (exec (initSys (V := Nat) (E := Nat) none)
        [Action.invoke "b" (Except.ok 1), Action.resolve 0]) "a" (Except.ok 2) =
      defaultQueryState "a" (Except.ok 2) ∧
    (readQueryState (exec (initSys (V := Nat) (E := Nat) none)
        [Action.invoke "b" (Except.ok 1), Action.resolve 0]) "a" (Except.ok 2)).status =
      QueryStatus.idle ∧
    (readQueryState (exec (initSys (V := Nat) (E := Nat) none)
        [Action.invoke "b" (Except.ok 1), Action.resolve 0]) "a"
      (Except.ok 2)).isFetching = false :=
  useQuery_idle_default none [Action.invoke "b" (Except.ok 1), Action.resolve 0] "a"
    (Except.ok 2) (by decide)

/-- C9: useQuery with an undefined context (no enclosing QueryProvider)
fails immediately with the usage error, and only with a defined context does
it go on to read query state; the failing branch computes no read and no
state change (it does not touch any store). -/
theorem useQuery_outside_provider (key : String) (p : Except E V) :
    useQuery (V := V) (E := E) none key p =
      Except.error "useQuery must be used within a QueryProvider" ∧
    ∀ s : Sys V E, useQuery (some s) key p = Except.ok (readQueryState s key p) :=
  ⟨rfl, fun _ => rfl⟩

/-! ## Heap model of the same engine, with record object identity

The value model above is observationally faithful but cannot talk about
which JavaScript object a record is.  Here records live in an arena
(`heap`), the store maps keys to arena indices (object references), and each
`setQueryStore` call appends the store it produced to `snapshots` — the
sequence of snapshots handed to observers.  `newStore = {...prevStore}`
copies the key-to-reference map but shares the record objects, so the code
line `newStore[key].isFetching = true` is a heap update at the existing
reference, visible through every earlier snapshot, while the other writes
allocate fresh record objects. -/

/-- Heap-model engine state. -/
structure HSys (V E : Type) where
  heap : List (QueryState V E)
  store : List (String × Nat)
  snapshots : List (List (String × Nat))
  cache : Option (InMemoryCache V)
  pending : List (Task V E)
deriving DecidableEq

/-- Heap-model dedup guard `queryStoreRef.current[key]?.isFetching`. -/
def hIsFetching (s : HSys V E) (key : String) : Bool :=
  match assocGet s.store key with
  | some ref =>
    match s.heap[ref]? with
    | some r => r.isFetching
    | none => false
  | none => false

/-- Heap-model cache-read step: a cache hit allocates a fresh success record
object and publishes the rebound store. -/
def hCacheRead (s : HSys V E) (key : String) (p : Except E V) : HSys V E :=
  match s.cache, assocGet s.store key with
  | some c, none =>
    match c.get key with
    | some v =>
      let r : QueryState V E := ⟨.success, some v, none, false, key, p⟩
      let st := assocSet s.store key s.heap.length
      { s with heap := s.heap ++ [r], store := st, snapshots := s.snapshots ++ [st] }
    | none => s
  | some _, some _ => s
  | none, _ => s

/-- Heap-model loading step: a missing key gets a freshly allocated loading
record; an existing key keeps its reference and the record object is
mutated in place (`newStore[key].isFetching = true`), the published store
being an equal key-to-reference map. -/
def hLoading (s : HSys V E) (key : String) (p : Except E V) : HSys V E :=
  match assocGet s.store key with
  | none =>
    let r : QueryState V E := ⟨.loading, none, none, true, key, p⟩
    let st := assocSet s.store key s.heap.length
    { s with heap := s.heap ++ [r], store := st, snapshots := s.snapshots ++ [st] }
  | some ref =>
    match s.heap[ref]? with
    | some r =>
      { s with heap := s.heap.set ref ({ r with isFetching := true }),
               snapshots := s.snapshots ++ [s.store] }
    | none => s

/-- Heap-model synchronous prefix of fetchData. -/
def hFetchDataStart (s : HSys V E) (key : String) (p : Except E V) : HSys V E :=
  if hIsFetching s key then s
  else
    let s2 := hLoading (hCacheRead s key p) key p
    { s2 with pending := s2.pending ++ [⟨key, p⟩] }

/-- Heap-model resolution: success and error writes allocate a fresh record
object and rebind the key to it. -/
def hFetchDataResolve (s : HSys V E) (t : Task V E) : HSys V E :=
  match t.producer with
  | .ok v =>
    let r : QueryState V E := ⟨.success, some v, none, false, t.key, t.producer⟩
    let st := assocSet s.store t.key s.heap.length
    { s with cache := s.cache.map (fun c => c.set t.key v),
             heap := s.heap ++ [r], store := st, snapshots := s.snapshots ++ [st] }
  | .error e =>
    let r : QueryState V E := ⟨.error, none, some e, false, t.key, t.producer⟩
    let st := assocSet s.store t.key s.heap.length
    { s with heap := s.heap ++ [r], store := st, snapshots := s.snapshots ++ [st] }

/-- Heap-model completion of the i-th outstanding call. -/
def hResolvePending (s : HSys V E) (i : Nat) : HSys V E :=
  match s.pending[i]? with
  | none => s
  | some t => { hFetchDataResolve s t with pending := s.pending.eraseIdx i }

/-- Heap-model scheduler event application. -/
def hApplyAction (s : HSys V E) : Action V E → HSys V E
  | .invoke k p => hFetchDataStart s k p
  | .resolve i => hResolvePending s i

/-- Heap-model run of a sequence of events. -/
def hExec (s : HSys V E) : List (Action V E) → HSys V E
  | [] => s
  | a :: rest => hExec (hApplyAction s a) rest

/-- Heap-model initial state. -/
def hInit (cache : Option (InMemoryCache V)) : HSys V E :=
  { heap := [], store := [], snapshots := [], cache := cache, pending := [] }

/-- The record an observer holding published snapshot j currently sees for a
key: the snapshot maps the key to a record object, dereferenced in the
present heap. -/
def snapshotRecord (s : HSys V E) (j : Nat) (key : String) :
    Option (QueryState V E) :=
  match s.snapshots[j]? with
  | some st =>
    match assocGet st key with
    | some ref => s.heap[ref]?
    | none => none
  | none => none

/-- C7 as stated is false: the loading step of a later invoke mutates in
place a record object that was published in an earlier store snapshot.  In
the run below, snapshot 1 is published at the successful resolution with
`isFetching = false`; after a further invoke of the same key, the very same
snapshot (an unchanged key-to-object map) shows its record with
`isFetching = true`. -/
theorem fetchData_record_inplace_counterexample :
    (snapshotRecord (hExec (hInit (V := Nat) (E := Nat) none)
        [Action.invoke "k" (Except.ok 1), Action.resolve 0]) 1 "k").map
      QueryState.isFetching = some false ∧
    (hExec (hInit (V := Nat) (E := Nat) none)
        [Action.invoke "k" (Except.ok 1), Action.resolve 0,
         Action.invoke "k" (Except.ok 2)]).snapshots[1]? =
      (hExec (hInit (V := Nat) (E := Nat) none)
        [Action.invoke "k" (Except.ok 1), Action.resolve 0]).snapshots[1]? ∧
    (snapshotRecord (hExec (hInit (V := Nat) (E := Nat) none)
        [Action.invoke "k" (Except.ok 1), Action.resolve 0,
         Action.invoke "k" (Except.ok 2)]) 1 "k").map
      QueryState.isFetching = some true := by
  decide

theorem hCacheRead_get_ne (s : HSys V E) (key : String) (p : Except E V)
    (k' : String) (h : k' ≠ key) :
    assocGet (hCacheRead s key p).store k' = assocGet s.store k' := by
  rcases hc : s.cache with _ | c
  · simp [hCacheRead, hc]
  · rcases hg : assocGet s.store key with _ | ref
    · rcases hv : c.get key with _ | v
      · simp [hCacheRead, hc, hg, hv]
      · simp [hCacheRead, hc, hg, hv, assocGet_set_ne _ _ _ _ h]
    · simp [hCacheRead, hc, hg]

theorem hLoading_get_ne (s : HSys V E) (key : String) (p : Except E V)
    (k' : String) (h : k' ≠ key) :
    assocGet (hLoading s key p).store k' = assocGet s.store k' := by
  rcases hg : assocGet s.store key with _ | ref
  · simp [hLoading, hg, assocGet_set_ne _ _ _ _ h]
  · rcases hh : s.heap[ref]? with _ | r <;> simp [hLoading, hg, hh]

/-- C7 amended: the cache-hit write (cache configured, no record yet, cached
value defined) rebinds the key to a freshly allocated record object and
leaves every other key bound as before; the success and error writes of any
resolution for the key likewise rebind it to a fresh object and leave other
keys alone; the freshly allocated reference is unused in the current heap;
the loading step for a key that already has a record instead keeps the store
unchanged — the same record object, mutated in place at its reference and at
no other — so earlier published snapshots observe the mutation; and a whole
invoke never rebinds any other key. -/
theorem fetchData_record_replacement (s : HSys V E) (key : String)
    (p : Except E V) (k' : String) (hk' : k' ≠ key) :
    (∀ c v, s.cache = some c → assocGet s.store key = none → c.get key = some v →
      assocGet (hCacheRead s key p).store key = some s.heap.length ∧
      assocGet (hCacheRead s key p).store k' = assocGet s.store k') ∧
    (∀ q : Except E V,
      assocGet (hFetchDataResolve s ⟨key, q⟩).store key = some s.heap.length ∧
      assocGet (hFetchDataResolve s ⟨key, q⟩).store k' = assocGet s.store k') ∧
    s.heap[s.heap.length]? = none ∧
    (∀ ref, assocGet s.store key = some ref →
      (hLoading s key p).store = s.store ∧
      ∀ j, j ≠ ref → (hLoading s key p).heap[j]? = s.heap[j]?) ∧
    assocGet (hFetchDataStart s key p).store k' = assocGet s.store k' := by
  refine ⟨?_, ?_, List.getElem?_eq_none (Nat.le_refl _), ?_, ?_⟩
  · intro c v hc hg hv
    constructor
    · simp [hCacheRead, hc, hg, hv, assocGet_set_self]
    · simp [hCacheRead, hc, hg, hv, assocGet_set_ne _ _ _ _ hk']
  · intro q
    have hres : ∀ x, assocGet (hFetchDataResolve s ⟨key, q⟩).store x =
        assocGet (assocSet s.store key s.heap.length) x := by
      intro x
      rcases hp : q with e | v <;> simp [hFetchDataResolve, hp]
    exact ⟨by rw [hres]; exact assocGet_set_self _ _ _,
      by rw [hres]; exact assocGet_set_ne _ _ _ _ hk'⟩
  · intro ref href
    constructor
    · rcases hh : s.heap[ref]? with _ | r <;> simp [hLoading, href, hh]
    · intro j hj
      rcases hh : s.heap[ref]? with _ | r
      · simp [hLoading, href, hh]
      · simp [hLoading, href, hh, List.getElem?_set_ne (Ne.symm hj)]
  · by_cases hf : hIsFetching s key
    · simp [hFetchDataStart, hf]
    · simp only [hFetchDataStart, hf, Bool.false_eq_true, if_false]
      show assocGet (hLoading (hCacheRead s key p) key p).store k' = _
      rw [hLoading_get_ne _ _ _ _ hk', hCacheRead_get_ne _ _ _ _ hk']

/-- Witness for the amended C7: the cache-hit branch exercised at a
pre-populated cache with no record for the key, and the resolution and
in-place loading branches exercised at a state holding a success record. -/
theorem fetchData_record_replacement_witness :
    (assocGet (hCacheRead (hInit (V := Nat) (E := Nat) (some ⟨[("k", 9)]⟩)) "k"
        (Except.ok 5)).store "k" =
      some (hInit (V := Nat) (E := Nat) (some ⟨[("k", 9)]⟩)).heap.length) ∧
    (assocGet (hCacheRead (hInit (V := Nat) (E := Nat) (some ⟨[("k", 9)]⟩)) "k"
        (Except.ok 5)).store "b" =
      assocGet (hInit (V := Nat) (E := Nat) (some ⟨[("k", 9)]⟩)).store "b") ∧
    ((hInit (V := Nat) (E := Nat) (some ⟨[("k", 9)]⟩)).heap[
      (hInit (V := Nat) (E := Nat) (some ⟨[("k", 9)]⟩)).heap.length]? = none) ∧
    (assocGet (hFetchDataStart (hInit (V := Nat) (E := Nat) (some ⟨[("k", 9)]⟩)) "k"
        (Except.ok 5)).store "b" =
      assocGet (hInit (V := Nat) (E := Nat) (some ⟨[("k", 9)]⟩)).store "b") ∧
    (assocGet (hFetchDataResolve (hExec (hInit (V := Nat) (E := Nat) none)
        [Action.invoke "k" (Except.ok 1), Action.resolve 0])
        ⟨"k", Except.ok 2⟩).store "k" =
      some (hExec (hInit (V := Nat) (E := Nat) none)
        [Action.invoke "k" (Except.ok 1), Action.resolve 0]).heap.length) ∧
    (assocGet (hFetchDataResolve (hExec (hInit (V := Nat) (E := Nat) none)
        [Action.invoke "k" (Except.ok 1), Action.resolve 0])
        ⟨"k", Except.ok 2⟩).store "b" =
      assocGet (hExec (hInit (V := Nat) (E := Nat) none)
        [Action.invoke "k" (Except.ok 1), Action.resolve 0]).store "b") ∧
    ((hLoading (hExec (hInit (V := Nat) (E := Nat) none)
        [Action.invoke "k" (Except.ok 1), Action.resolve 0]) "k"
        (Except.ok 2)).store =
      (hExec (hInit (V := Nat) (E := Nat) none)
        [Action.invoke "k" (Except.ok 1), Action.resolve 0]).store) ∧
    ((hLoading (hExec (hInit (V := Nat) (E := Nat) none)
        [Action.invoke "k" (Except.ok 1), Action.resolve 0]) "k"
        (Except.ok 2)).heap[0]? =
      (hExec (hInit (V := Nat) (E := Nat) none)
        [Action.invoke "k" (Except.ok 1), Action.resolve 0]).heap[0]?) := by
  have hA := fetchData_record_replacement (hInit (V := Nat) (E := Nat)
    (some ⟨[("k", 9)]⟩)) "k" (Except.ok 5) "b" (by decide)
  have hB := fetchData_record_replacement (hExec (hInit (V := Nat) (E := Nat) none)
    [Action.invoke "k" (Except.ok 1), Action.resolve 0]) "k" (Except.ok 2) "b"
    (by decide)
  have hA1 := hA.1 ⟨[("k", 9)]⟩ 9 rfl rfl (by decide)
  have hB2 := hB.2.1 (Except.ok 2)
  have hB4 := hB.2.2.2.1 1 (by decide)
  exact ⟨hA1.1, hA1.2, hA.2.2.1, hA.2.2.2.2, hB2.1, hB2.2, hB4.1, hB4.2 0 (by decide)⟩

end QueryPulse
